import Mathlib

/-!
# Verification of `AP_MotorsMatrix.cpp` (ArduCopter motors library)

A shallow embedding of `libraries/AP_Motors/AP_MotorsMatrix.cpp`: the motor
geometry registry (`add_motor_raw`, `add_motor`, `remove_motor`,
`remove_all_motors`), the armed mixing cycle (`output_armed`) and the
diagnostic test sequencer (`output_test`), together with theorems about them.

Modeling conventions:
* `int16_t` / `int8_t` quantities are modeled as `Int`, `uint8_t` counters as
  `Nat` (with explicit `% 256` where the source increments/decrements them);
  none of the properties proved here depend on 16-bit wrap-around, and the
  final defensive clamp bounds the outputs independently of it.
* C `float` values (the mixing factors and `rpy_scale`) are modeled as exact
  rationals `ℚ`; a store of a float expression into an `int16_t` truncates
  toward zero (`ratTrunc`).  C integer division also truncates toward zero
  (`Int.tdiv`).
* The external command-axis objects (`RC_Channel`) are read inputs: `pwm_out`
  / `radio_out` are produced by the external `calc_pwm()` and enter the model
  as free fields of `MixInputs`.
* The hardware write `hal.rcout->write` and the scheduler delays are modeled
  as events (`TestEvent`) where the order of effects matters
  (`output_test`); for `output_armed` the value written for an enabled motor
  is exactly `motor_out i`.
-/

namespace MotorsMatrix

/-- Modelled from the spec: the fixed motor-slot capacity
`AP_MOTORS_MAX_NUM_MOTORS` is declared in the header, which is not part of
the examined source; the spec describes a "fixed maximum capacity,
e.g. 8–12 slots". -/
def maxNumMotors : Nat := 8

/-- Modelled from the spec: `constrain_int16(v, lo, hi)` from the external
math library clamps `v` into `[lo, hi]`. -/
def constrainInt16 (v lo hi : Int) : Int :=
  if v < lo then lo else if hi < v then hi else v

/-- Truncation toward zero of a rational: the semantics of a C cast from a
floating-point expression to an integer type. -/
def ratTrunc (q : ℚ) : Int := Int.tdiv q.num (q.den : Int)

/-- The per-slot motor table and the live-motor counter
(`motor_enabled[]`, `_roll_factor[]`, `_pitch_factor[]`, `_yaw_factor[]`,
`_test_order[]`, `_num_motors`). -/
structure Registry where
  motor_enabled : Fin maxNumMotors → Bool
  roll_factor : Fin maxNumMotors → ℚ
  pitch_factor : Fin maxNumMotors → ℚ
  yaw_factor : Fin maxNumMotors → ℚ
  test_order : Fin maxNumMotors → Nat
  num_motors : Nat

/-- The all-disabled registry: the state before any registration call
(the spec: "Motors are created/activated via explicit registration calls"). -/
def emptyRegistry : Registry where
  motor_enabled := fun _ => false
  roll_factor := fun _ => 0
  pitch_factor := fun _ => 0
  yaw_factor := fun _ => 0
  test_order := fun _ => 0
  num_motors := 0

/-- Source `AP_MotorsMatrix::add_motor_raw` (lines 327–346): bounds-check the slot,
enable it (incrementing `_num_motors` if newly enabled, a `uint8_t`
increment), then overwrite the three factors and the test order. -/
def add_motor_raw (r : Registry) (motor_num : Int)
    (roll_fac pitch_fac yaw_fac : ℚ) (testing_order : Nat) : Registry :=
  if h : 0 ≤ motor_num ∧ motor_num < (maxNumMotors : Int) then
    let i : Fin maxNumMotors := ⟨motor_num.toNat, by
      simp only [maxNumMotors] at h ⊢; omega⟩
    { r with
      motor_enabled := Function.update r.motor_enabled i true
      num_motors := if r.motor_enabled i then r.num_motors
                    else (r.num_motors + 1) % 256
      roll_factor := Function.update r.roll_factor i roll_fac
      pitch_factor := Function.update r.pitch_factor i pitch_fac
      yaw_factor := Function.update r.yaw_factor i yaw_fac
      test_order := Function.update r.test_order i testing_order }
  else r

/-- Source `AP_MotorsMatrix::add_motor` (lines 349–359): position/direction
convenience wrapper.  Modelled from the spec: `cosf(radians(·))` comes from
the external math library and is abstracted as the function parameter `c`;
the wrapper passes `c (angle + 90)` as the roll factor and `c angle` as the
pitch factor. -/
def add_motor (c : ℚ → ℚ) (r : Registry) (motor_num : Int)
    (angle_degrees yaw_fac : ℚ) (testing_order : Nat) : Registry :=
  add_motor_raw r motor_num (c (angle_degrees + 90)) (c angle_degrees)
    yaw_fac testing_order

/-- Source `AP_MotorsMatrix::remove_motor` (lines 362–377): bounds-check the slot,
decrement `_num_motors` (a `uint8_t`) if the slot was enabled, then disable
it and zero its three factors. -/
def remove_motor (r : Registry) (motor_num : Int) : Registry :=
  if h : 0 ≤ motor_num ∧ motor_num < (maxNumMotors : Int) then
    let i : Fin maxNumMotors := ⟨motor_num.toNat, by
      simp only [maxNumMotors] at h ⊢; omega⟩
    { r with
      num_motors := if r.motor_enabled i then (r.num_motors + 255) % 256
                    else r.num_motors
      motor_enabled := Function.update r.motor_enabled i false
      roll_factor := Function.update r.roll_factor i 0
      pitch_factor := Function.update r.pitch_factor i 0
      yaw_factor := Function.update r.yaw_factor i 0 }
  else r

/-- Source `AP_MotorsMatrix::remove_all_motors` (lines 380–386): remove every slot
in increasing order, then reset the live counter to zero. -/
def remove_all_motors (r : Registry) : Registry :=
  { (List.range maxNumMotors).foldl
      (fun s k => remove_motor s (k : Int)) r with
    num_motors := 0 }

/-- Mixer configuration: `_min_throttle`, `_max_throttle`, `_hover_out`,
`_spin_when_armed`, the optional throttle curve, and the header constant
`AP_MOTORS_MATRIX_YAW_LOWER_LIMIT_PWM` (modelled from the spec as a
parameter, since the header is not part of the examined source). -/
structure MixParams where
  min_throttle : Int
  max_throttle : Int
  hover_out : Int
  spin_when_armed : Int
  yaw_lower_limit_pwm : Int
  throttle_curve_enabled : Bool
  throttle_curve : Int → Int

/-- One cycle's command-axis readings: `pwm_out` of the roll/pitch/yaw
channels, the throttle channel's `servo_out` (before the mixer clamps it)
and its `radio_out` (produced by the external `calc_pwm()`), and the
throttle channel's `radio_min` / `radio_max`. -/
structure MixInputs where
  roll_pwm : Int
  pitch_pwm : Int
  yaw_pwm : Int
  throttle_servo : Int
  throttle_radio_out : Int
  radio_min : Int
  radio_max : Int

/-- Zero-throttle branch, lines 128–133: `_spin_when_armed` is range-checked
in place, first against `0`, then against `_min_throttle`. -/
def spin_armed_clamped (p : MixParams) : Int :=
  let s1 := if p.spin_when_armed < 0 then 0 else p.spin_when_armed
  if p.min_throttle < s1 then p.min_throttle else s1

/-- Line 97: `out_min = radio_min + _min_throttle`. -/
def out_min (p : MixParams) (inp : MixInputs) : Int :=
  inp.radio_min + p.min_throttle

/-- Line 98: `out_max = radio_max`. -/
def out_max (inp : MixInputs) : Int := inp.radio_max

/-- Line 99: `out_mid = (out_min+out_max)/2` (C truncated division). -/
def out_mid (p : MixParams) (inp : MixInputs) : Int :=
  Int.tdiv (out_min p inp + out_max inp) 2

/-- First mixing loop, lines 154–168: per-motor roll+pitch contribution
`rpy_out[i] = roll_pwm * _roll_factor[i] + pitch_pwm * _pitch_factor[i]`
(a float expression stored into an `int16_t`).  Entries of disabled slots
are uninitialized in the source and never read; they are `0` here. -/
def rpy_rp (r : Registry) (inp : MixInputs) : Fin maxNumMotors → Int :=
  fun i =>
    if r.motor_enabled i then
      ratTrunc ((inp.roll_pwm : ℚ) * r.roll_factor i +
                (inp.pitch_pwm : ℚ) * r.pitch_factor i)
    else 0

/-- The running-minimum tracking pattern of the mixing loops
(`if (rpy_out[i] < rpy_low) rpy_low = rpy_out[i];`), folded in slot order
from a given starting value. -/
def track_low (en : Fin maxNumMotors → Bool) (v : Fin maxNumMotors → Int)
    (a : Int) : Int :=
  (List.finRange maxNumMotors).foldl
    (fun acc i => if en i then (if v i < acc then v i else acc) else acc) a

/-- The running-maximum tracking pattern of the mixing loops. -/
def track_high (en : Fin maxNumMotors → Bool) (v : Fin maxNumMotors → Int)
    (a : Int) : Int :=
  (List.finRange maxNumMotors).foldl
    (fun acc i => if en i then (if acc < v i then v i else acc) else acc) a

/-- Value of `rpy_low` after the first mixing loop (initialized to 0 at line 105). -/
def rpy_low_rp (r : Registry) (inp : MixInputs) : Int :=
  track_low r.motor_enabled (rpy_rp r inp) 0

/-- Value of `rpy_high` after the first mixing loop (initialized to 0 at line 106). -/
def rpy_high_rp (r : Registry) (inp : MixInputs) : Int :=
  track_high r.motor_enabled (rpy_rp r inp) 0

/-- Line 174: `motor_mid = (rpy_low+rpy_high)/2` (C truncated division). -/
def motor_mid (r : Registry) (inp : MixInputs) : Int :=
  Int.tdiv (rpy_low_rp r inp + rpy_high_rp r inp) 2

/-- Line 175: the throttle point that maximizes yaw room,
`out_max_range = min(out_mid - motor_mid, max(radio_out, (radio_out+_hover_out)/2))`. -/
def out_max_range (r : Registry) (p : MixParams) (inp : MixInputs) : Int :=
  min (out_mid p inp - motor_mid r inp)
    (max inp.throttle_radio_out
      (Int.tdiv (inp.throttle_radio_out + p.hover_out) 2))

/-- Lines 179–180: the yaw headroom
`yaw_allowed = min(out_max - out_max_range, out_max_range - out_min) - (rpy_high-rpy_low)/2`,
floored at `AP_MOTORS_MATRIX_YAW_LOWER_LIMIT_PWM`. -/
def yaw_headroom (r : Registry) (p : MixParams) (inp : MixInputs) : Int :=
  max (min (out_max inp - out_max_range r p inp)
        (out_max_range r p inp - out_min p inp) -
       Int.tdiv (rpy_high_rp r inp - rpy_low_rp r inp) 2)
    p.yaw_lower_limit_pwm

/-- Lines 182–197: sign-dependent clamping of the requested yaw into the
headroom; returns the applied yaw value and the `limit.yaw` flag set by this
step. -/
def yaw_step (r : Registry) (p : MixParams) (inp : MixInputs) : Int × Bool :=
  if 0 ≤ inp.yaw_pwm then
    if inp.yaw_pwm < yaw_headroom r p inp then (inp.yaw_pwm, false)
    else (yaw_headroom r p inp, true)
  else
    if -yaw_headroom r p inp < inp.yaw_pwm then (inp.yaw_pwm, false)
    else (-yaw_headroom r p inp, true)

/-- The yaw value actually mixed into the motors. -/
def yaw_applied (r : Registry) (p : MixParams) (inp : MixInputs) : Int :=
  (yaw_step r p inp).1

/-- Second mixing loop, lines 200–214: add the yaw contribution,
`rpy_out[i] = rpy_out[i] + yaw_allowed * _yaw_factor[i]` (again a float
expression stored into an `int16_t`). -/
def rpy_out (r : Registry) (p : MixParams) (inp : MixInputs) :
    Fin maxNumMotors → Int :=
  fun i =>
    if r.motor_enabled i then
      ratTrunc ((rpy_rp r inp i : ℚ) +
                (yaw_applied r p inp : ℚ) * r.yaw_factor i)
    else rpy_rp r inp i

/-- Value of `rpy_low` after the second mixing loop (the source keeps folding into the
same variable). -/
def rpy_low (r : Registry) (p : MixParams) (inp : MixInputs) : Int :=
  track_low r.motor_enabled (rpy_out r p inp) (rpy_low_rp r inp)

/-- Value of `rpy_high` after the second mixing loop. -/
def rpy_high (r : Registry) (p : MixParams) (inp : MixInputs) : Int :=
  track_high r.motor_enabled (rpy_out r p inp) (rpy_high_rp r inp)

/-- Lines 149–151 and 217–232: the throttle adjustment `thr_adj` and the
`limit.throttle` flag (set early when `radio_out < out_min`, and again when a
positive `thr_adj` must be cut to keep `rpy_high` under `out_max`). -/
def thr_adj_step (r : Registry) (p : MixParams) (inp : MixInputs) :
    Int × Bool :=
  let lt0 : Bool := decide (inp.throttle_radio_out < out_min p inp)
  let t0 := inp.throttle_radio_out - out_max_range r p inp
  if 0 < t0 then
    if out_max inp - (rpy_high r p inp + out_max_range r p inp) < t0 then
      (out_max inp - (rpy_high r p inp + out_max_range r p inp), true)
    else (t0, lt0)
  else if t0 < 0 then
    (max (min t0 (out_max inp - (rpy_high r p inp + out_max_range r p inp)))
      (min (out_min p inp - (rpy_low r p inp + out_max_range r p inp)) 0),
     lt0)
  else (t0, lt0)

/-- The throttle adjustment actually applied. -/
def thr_adj (r : Registry) (p : MixParams) (inp : MixInputs) : Int :=
  (thr_adj_step r p inp).1

/-- Lines 236–246, the last-resort scaling step: when the combined low or
high extreme still violates a bound, `rpy_scale` is a float division by
`rpy_low` (resp. `rpy_high`).  The quotient is `none` when the taken
branch's divisor is exactly zero (the source then divides by zero); the
`Bool` records whether a branch was taken (it forces `limit.roll_pitch` and
`limit.yaw`).  `rpy_scale` is initialized to `1.0` at line 101. -/
def rpy_scale_step (r : Registry) (p : MixParams) (inp : MixInputs) :
    Option ℚ × Bool :=
  if rpy_low r p inp + out_max_range r p inp + thr_adj r p inp <
      out_min p inp then
    (if rpy_low r p inp = 0 then none
     else some (((out_min p inp - thr_adj r p inp - out_max_range r p inp :
                   Int) : ℚ) / ((rpy_low r p inp : Int) : ℚ)), true)
  else if out_max inp <
      rpy_high r p inp + out_max_range r p inp + thr_adj r p inp then
    (if rpy_high r p inp = 0 then none
     else some (((out_max inp - thr_adj r p inp - out_max_range r p inp :
                   Int) : ℚ) / ((rpy_high r p inp : Int) : ℚ)), true)
  else (some 1, false)

/-- Lines 249–269: final per-motor value `out_max_range + thr_adj +
rpy_scale * rpy_out[i]` (float, truncated into an `int16_t`), optionally
remapped through the throttle curve, then defensively clamped into
`[out_min, out_max]`.  Disabled slots keep their previous `motor_out`
value. -/
def motor_out_general (r : Registry) (p : MixParams) (inp : MixInputs)
    (prev : Fin maxNumMotors → Int) : Fin maxNumMotors → Int :=
  fun i =>
    if r.motor_enabled i then
      let raw := ratTrunc
        (((out_max_range r p inp + thr_adj r p inp : Int) : ℚ) +
         ((rpy_scale_step r p inp).1.getD 0) * (rpy_out r p inp i : ℚ))
      let curved := if p.throttle_curve_enabled then p.throttle_curve raw
                    else raw
      constrainInt16 curved (out_min p inp) (out_max inp)
    else prev i

/-- Everything `output_armed` leaves behind after one cycle: the persisted
throttle `servo_out` (clamped at line 117), the possibly-clamped
`_spin_when_armed` parameter, the `motor_out[]` array, the three saturation
flags, and the key intermediates of the general path (meaningful when
`servo_out ≠ 0`). -/
structure ArmedResult where
  servo_out : Int
  spin_when_armed : Int
  motor_out : Fin maxNumMotors → Int
  limit_roll_pitch : Bool
  limit_yaw : Bool
  limit_throttle : Bool
  out_max_range : Int
  yaw_headroom : Int
  yaw_applied : Int
  thr_adj : Int
  rpy_low : Int
  rpy_high : Int
  rpy_scale : Option ℚ

/-- Source `AP_MotorsMatrix::output_armed` (lines 94–278).  The throttle desired
value is clamped into `[0, _max_throttle]`; if the clamped value is zero the
zero-throttle branch runs (lines 126–144), otherwise the general mixing path
(lines 146–270). -/
def output_armed (r : Registry) (p : MixParams) (inp : MixInputs)
    (prev : Fin maxNumMotors → Int) : ArmedResult :=
  let servo := constrainInt16 inp.throttle_servo 0 p.max_throttle
  if servo = 0 then
    { servo_out := servo
      spin_when_armed := spin_armed_clamped p
      motor_out := fun i =>
        if r.motor_enabled i then inp.radio_min + spin_armed_clamped p
        else prev i
      limit_roll_pitch := true
      limit_yaw := true
      limit_throttle := true
      out_max_range := 0
      yaw_headroom := 0
      yaw_applied := 0
      thr_adj := 0
      rpy_low := 0
      rpy_high := 0
      rpy_scale := some 1 }
  else
    { servo_out := servo
      spin_when_armed := p.spin_when_armed
      motor_out := motor_out_general r p inp prev
      limit_roll_pitch := (rpy_scale_step r p inp).2
      limit_yaw := (yaw_step r p inp).2 || (rpy_scale_step r p inp).2
      limit_throttle := (thr_adj_step r p inp).2
      out_max_range := out_max_range r p inp
      yaw_headroom := yaw_headroom r p inp
      yaw_applied := yaw_applied r p inp
      thr_adj := thr_adj r p inp
      rpy_low := rpy_low r p inp
      rpy_high := rpy_high r p inp
      rpy_scale := (rpy_scale_step r p inp).1 }

/-- An observable effect of the test sequencer: a PWM write to a motor's
output channel (the slot-to-channel map is an external bijection, so slots
stand for channels here), or a blocking scheduler delay in milliseconds. -/
inductive TestEvent where
  | write : Fin maxNumMotors → Int → TestEvent
  | delay : Nat → TestEvent
deriving DecidableEq

/-- Source `AP_MotorsMatrix::output_min` (lines 79–90) as its event trace: every
enabled motor is driven to `radio_min`, in slot order. -/
def output_min_events (r : Registry) (inp : MixInputs) : List TestEvent :=
  (List.finRange maxNumMotors).flatMap fun i =>
    if r.motor_enabled i then [TestEvent.write i inp.radio_min] else []

/-- Lines 294–301: the minimum `_test_order` across all slots (enabled or
not), seeded from slot 0. -/
def min_test_order (r : Registry) : Nat :=
  (List.finRange maxNumMotors).foldl
    (fun a i => if r.test_order i < a then r.test_order i else a)
    (r.test_order ⟨0, by decide⟩)

/-- Lines 294–301: the maximum `_test_order` across all slots (enabled or
not), seeded from slot 0. -/
def max_test_order (r : Registry) : Nat :=
  (List.finRange maxNumMotors).foldl
    (fun a i => if a < r.test_order i then r.test_order i else a)
    (r.test_order ⟨0, by decide⟩)

/-- Lines 313–317: one firing of motor `j` — `radio_min + _min_throttle`
held 300 ms, then `radio_min` held 2000 ms. -/
def fire_pulse (p : MixParams) (inp : MixInputs) (j : Fin maxNumMotors) :
    List TestEvent :=
  [TestEvent.write j (inp.radio_min + p.min_throttle), TestEvent.delay 300,
   TestEvent.write j inp.radio_min, TestEvent.delay 2000]

/-- Source `AP_MotorsMatrix::output_test` (lines 288–324) as its event trace:
shut down all motors, settle 4000 ms, then for each order from
`min_test_order` to `max_test_order` fire every enabled motor of that order
in slot order, and finally shut down all motors again.  (The `uint8_t` loop
counter matches this `Nat` range iteration as long as no slot's order is
255, where the C loop would wrap and never terminate.) -/
def output_test_events (r : Registry) (p : MixParams) (inp : MixInputs) :
    List TestEvent :=
  output_min_events r inp ++ [TestEvent.delay 4000] ++
  ((List.range' (min_test_order r)
      (max_test_order r + 1 - min_test_order r)).flatMap fun o =>
    (List.finRange maxNumMotors).flatMap fun j =>
      if r.motor_enabled j ∧ r.test_order j = o then fire_pulse p inp j
      else []) ++
  output_min_events r inp

/-- The order in which motors fire during `output_test`: for each test order
from lowest to highest, the enabled slots with that order, in slot order. -/
def firing_sequence (r : Registry) : List (Fin maxNumMotors) :=
  (List.range' (min_test_order r)
      (max_test_order r + 1 - min_test_order r)).flatMap fun o =>
    (List.finRange maxNumMotors).filter fun j =>
      r.motor_enabled j && r.test_order j == o

/-- The registry invariant stated by the spec: the number of enabled slots
equals `_num_motors`, and every disabled slot's three factors are exactly
zero. -/
def RegistryInv (r : Registry) : Prop :=
  (List.finRange maxNumMotors).countP (fun i => r.motor_enabled i) =
      r.num_motors ∧
  ∀ i, r.motor_enabled i = false →
    r.roll_factor i = 0 ∧ r.pitch_factor i = 0 ∧ r.yaw_factor i = 0

instance (r : Registry) : Decidable (RegistryInv r) := by
  unfold RegistryInv; infer_instance

/-! ## General lemmas about the building blocks -/

lemma ratTrunc_intCast (n : Int) : ratTrunc (n : ℚ) = n := by
  have h1 : ((n : ℚ)).num = n := rfl
  have h2 : ((n : ℚ)).den = 1 := rfl
  rw [ratTrunc, h1, h2]
  simpa using Int.tdiv_one n

lemma ratTrunc_zero : ratTrunc 0 = 0 := by
  rw [show (0 : ℚ) = ((0 : Int) : ℚ) by norm_num]
  exact ratTrunc_intCast 0

lemma constrainInt16_bounds (v lo hi : Int) (h : lo ≤ hi) :
    lo ≤ constrainInt16 v lo hi ∧ constrainInt16 v lo hi ≤ hi := by
  unfold constrainInt16; split_ifs <;> omega

lemma spin_armed_clamped_eq (p : MixParams) :
    spin_armed_clamped p = min (max p.spin_when_armed 0) p.min_throttle := by
  unfold spin_armed_clamped
  simp only [min_def, max_def]
  split_ifs <;> omega

lemma spin_armed_clamped_bounds (p : MixParams) (h : 0 ≤ p.min_throttle) :
    0 ≤ spin_armed_clamped p ∧ spin_armed_clamped p ≤ p.min_throttle := by
  unfold spin_armed_clamped
  dsimp only
  split_ifs <;> omega

lemma foldl_track_low_le (en : Fin maxNumMotors → Bool)
    (v : Fin maxNumMotors → Int) (l : List (Fin maxNumMotors)) :
    ∀ a : Int,
      l.foldl (fun acc i =>
        if en i then (if v i < acc then v i else acc) else acc) a ≤ a := by
  induction l with
  | nil => intro a; simp
  | cons j t ih =>
    intro a
    have hstep : (if en j then (if v j < a then v j else a) else a) ≤ a := by
      split_ifs <;> omega
    calc t.foldl _ (if en j then (if v j < a then v j else a) else a) ≤ _ :=
          ih _
      _ ≤ a := hstep

lemma foldl_track_high_ge (en : Fin maxNumMotors → Bool)
    (v : Fin maxNumMotors → Int) (l : List (Fin maxNumMotors)) :
    ∀ a : Int,
      a ≤ l.foldl (fun acc i =>
        if en i then (if acc < v i then v i else acc) else acc) a := by
  induction l with
  | nil => intro a; simp
  | cons j t ih =>
    intro a
    have hstep : a ≤ (if en j then (if a < v j then v j else a) else a) := by
      split_ifs <;> omega
    calc a ≤ (if en j then (if a < v j then v j else a) else a) := hstep
      _ ≤ _ := ih _

lemma track_low_le_init (en : Fin maxNumMotors → Bool)
    (v : Fin maxNumMotors → Int) (a : Int) : track_low en v a ≤ a :=
  foldl_track_low_le en v _ a

lemma track_high_init_le (en : Fin maxNumMotors → Bool)
    (v : Fin maxNumMotors → Int) (a : Int) : a ≤ track_high en v a :=
  foldl_track_high_ge en v _ a

lemma track_low_eq_init (en : Fin maxNumMotors → Bool)
    (v : Fin maxNumMotors → Int) (a : Int)
    (h : ∀ i, en i = true → a ≤ v i) : track_low en v a = a := by
  unfold track_low
  induction List.finRange maxNumMotors with
  | nil => rfl
  | cons j t ih =>
    have hstep : (if en j then (if v j < a then v j else a) else a) = a := by
      by_cases hj : en j = true
      · have := h j hj
        simp [hj]
        omega
      · simp at hj
        simp [hj]
    simpa [hstep] using ih

lemma track_high_eq_init (en : Fin maxNumMotors → Bool)
    (v : Fin maxNumMotors → Int) (a : Int)
    (h : ∀ i, en i = true → v i ≤ a) : track_high en v a = a := by
  unfold track_high
  induction List.finRange maxNumMotors with
  | nil => rfl
  | cons j t ih =>
    have hstep : (if en j then (if a < v j then v j else a) else a) = a := by
      by_cases hj : en j = true
      · have := h j hj
        simp [hj]
        omega
      · simp at hj
        simp [hj]
    simpa [hstep] using ih

lemma rpy_rp_zero (r : Registry) (inp : MixInputs)
    (h1 : inp.roll_pwm = 0) (h2 : inp.pitch_pwm = 0) :
    rpy_rp r inp = fun _ => 0 := by
  funext i
  unfold rpy_rp
  rw [h1, h2]
  split
  · norm_num [ratTrunc_zero]
  · rfl

lemma yaw_step_of_zero_request (r : Registry) (p : MixParams)
    (inp : MixInputs) (h0 : inp.yaw_pwm = 0)
    (hh : 0 < yaw_headroom r p inp) :
    yaw_step r p inp = (0, false) := by
  unfold yaw_step
  rw [h0]
  simp [hh]

lemma rpy_out_zero (r : Registry) (p : MixParams) (inp : MixInputs)
    (hrp : rpy_rp r inp = fun _ => 0) (hya : yaw_applied r p inp = 0) :
    rpy_out r p inp = fun _ => 0 := by
  funext i
  unfold rpy_out
  rw [hrp, hya]
  split
  · norm_num [ratTrunc_zero]
  · rfl

/-- The zero-throttle branch of `output_armed`, as an equation. -/
lemma output_armed_zero_eq (r : Registry) (p : MixParams) (inp : MixInputs)
    (prev : Fin maxNumMotors → Int)
    (h : constrainInt16 inp.throttle_servo 0 p.max_throttle = 0) :
    output_armed r p inp prev =
      { servo_out := 0
        spin_when_armed := spin_armed_clamped p
        motor_out := fun i =>
          if r.motor_enabled i then inp.radio_min + spin_armed_clamped p
          else prev i
        limit_roll_pitch := true
        limit_yaw := true
        limit_throttle := true
        out_max_range := 0
        yaw_headroom := 0
        yaw_applied := 0
        thr_adj := 0
        rpy_low := 0
        rpy_high := 0
        rpy_scale := some 1 } := by
  unfold output_armed
  rw [h]
  simp

/-- The general branch of `output_armed`, as an equation. -/
lemma output_armed_general_eq (r : Registry) (p : MixParams)
    (inp : MixInputs) (prev : Fin maxNumMotors → Int)
    (h : constrainInt16 inp.throttle_servo 0 p.max_throttle ≠ 0) :
    output_armed r p inp prev =
      { servo_out := constrainInt16 inp.throttle_servo 0 p.max_throttle
        spin_when_armed := p.spin_when_armed
        motor_out := motor_out_general r p inp prev
        limit_roll_pitch := (rpy_scale_step r p inp).2
        limit_yaw := (yaw_step r p inp).2 || (rpy_scale_step r p inp).2
        limit_throttle := (thr_adj_step r p inp).2
        out_max_range := out_max_range r p inp
        yaw_headroom := yaw_headroom r p inp
        yaw_applied := yaw_applied r p inp
        thr_adj := thr_adj r p inp
        rpy_low := rpy_low r p inp
        rpy_high := rpy_high r p inp
        rpy_scale := (rpy_scale_step r p inp).1 } := by
  unfold output_armed
  simp [h]

/-! ## Concrete instances used by witnesses and counterexamples -/

/-- A 4-motor registry with unit roll/pitch factors and alternating yaw
factors (any factor values are reachable through `add_motor_raw`). -/
def reg4 : Registry where
  motor_enabled := fun i => decide (i.val < 4)
  roll_factor := fun _ => 1
  pitch_factor := fun _ => 1
  yaw_factor := fun i => if i.val % 2 = 0 then 1 else -1
  test_order := fun i => i.val + 1
  num_motors := 4

/-- Typical configuration: `min_throttle = 100`, `max_throttle = 1000`,
hover estimate 1500, `spin_when_armed = 70`, yaw floor 200, no throttle
curve. -/
def params0 : MixParams where
  min_throttle := 100
  max_throttle := 1000
  hover_out := 1500
  spin_when_armed := 70
  yaw_lower_limit_pwm := 200
  throttle_curve_enabled := false
  throttle_curve := fun v => v

/-- Zero-throttle cycle inputs: sticks neutral, throttle desired value 0,
`radio_min = 1000`, `radio_max = 2000`. -/
def inpZero : MixInputs where
  roll_pwm := 0
  pitch_pwm := 0
  yaw_pwm := 0
  throttle_servo := 0
  throttle_radio_out := 1000
  radio_min := 1000
  radio_max := 2000

/-- Previous cycle's motor outputs, for the persistent `motor_out[]`
array. -/
def prev0 : Fin maxNumMotors → Int := fun _ => 1000

/-! ## C1 — zero-throttle full stop -/

/-- C1: in an armed mixing cycle whose throttle desired value is exactly
zero after clamping to `[0, max_throttle]`, every enabled motor's output is
exactly `radio_min + clamp(spin_when_armed, 0, min_throttle)`, and all three
saturation flags are true. -/
theorem zero_throttle_full_stop (r : Registry) (p : MixParams)
    (inp : MixInputs) (prev : Fin maxNumMotors → Int)
    (h : constrainInt16 inp.throttle_servo 0 p.max_throttle = 0) :
    (∀ i, r.motor_enabled i = true →
      (output_armed r p inp prev).motor_out i =
        inp.radio_min + min (max p.spin_when_armed 0) p.min_throttle) ∧
    (output_armed r p inp prev).limit_roll_pitch = true ∧
    (output_armed r p inp prev).limit_yaw = true ∧
    (output_armed r p inp prev).limit_throttle = true := by
  rw [output_armed_zero_eq r p inp prev h]
  refine ⟨fun i hi => ?_, rfl, rfl, rfl⟩
  simp only [hi, if_true, spin_armed_clamped_eq]

theorem zero_throttle_full_stop_witness :
    constrainInt16 inpZero.throttle_servo 0 params0.max_throttle = 0 ∧
    ((∀ i, reg4.motor_enabled i = true →
        (output_armed reg4 params0 inpZero prev0).motor_out i =
          inpZero.radio_min +
            min (max params0.spin_when_armed 0) params0.min_throttle) ∧
      (output_armed reg4 params0 inpZero prev0).limit_roll_pitch = true ∧
      (output_armed reg4 params0 inpZero prev0).limit_yaw = true ∧
      (output_armed reg4 params0 inpZero prev0).limit_throttle = true) :=
  ⟨by decide, zero_throttle_full_stop reg4 params0 inpZero prev0 (by decide)⟩

/-! ## C10 — the zero-throttle branch persistently clamps
`_spin_when_armed` itself -/

/-- C10: the zero-throttle branch overwrites the stored `_spin_when_armed`
parameter with its clamped value — the post-cycle configuration carries
`clamp(spin_when_armed, 0, min_throttle)` for every later reader, and the
same stored value is what the branch adds to `radio_min`. -/
theorem zero_throttle_spin_param_mutated (r : Registry) (p : MixParams)
    (inp : MixInputs) (prev : Fin maxNumMotors → Int)
    (h : constrainInt16 inp.throttle_servo 0 p.max_throttle = 0) :
    (output_armed r p inp prev).spin_when_armed =
      min (max p.spin_when_armed 0) p.min_throttle ∧
    ∀ i, r.motor_enabled i = true →
      (output_armed r p inp prev).motor_out i =
        inp.radio_min + (output_armed r p inp prev).spin_when_armed := by
  rw [output_armed_zero_eq r p inp prev h]
  refine ⟨spin_armed_clamped_eq p, fun i hi => ?_⟩
  simp only [hi, if_true]

theorem zero_throttle_spin_param_mutated_witness :
    constrainInt16 inpZero.throttle_servo 0 params0.max_throttle = 0 ∧
    ((output_armed reg4 params0 inpZero prev0).spin_when_armed =
        min (max params0.spin_when_armed 0) params0.min_throttle ∧
      ∀ i, reg4.motor_enabled i = true →
        (output_armed reg4 params0 inpZero prev0).motor_out i =
          inpZero.radio_min +
            (output_armed reg4 params0 inpZero prev0).spin_when_armed) :=
  ⟨by decide,
    zero_throttle_spin_param_mutated reg4 params0 inpZero prev0 (by decide)⟩

/-! ## C8 — out-of-range slots are silent no-ops -/

/-- C8: for a slot index outside `[0, capacity)`, `add_motor_raw` and
`remove_motor` return the registry completely unchanged — every field,
including `num_motors` — and produce no error value of any kind (the return
type is the bare registry). -/
theorem out_of_range_slot_noop (r : Registry) (n : Int)
    (rf pf yf : ℚ) (t : Nat) (h : n < 0 ∨ (maxNumMotors : Int) ≤ n) :
    add_motor_raw r n rf pf yf t = r ∧ remove_motor r n = r := by
  have hcond : ¬(0 ≤ n ∧ n < (maxNumMotors : Int)) := by
    rcases h with h | h <;> omega
  constructor
  · unfold add_motor_raw
    rw [dif_neg hcond]
  · unfold remove_motor
    rw [dif_neg hcond]

theorem out_of_range_slot_noop_witness :
    (((-1 : Int) < 0 ∨ (maxNumMotors : Int) ≤ (-1 : Int)) ∧
      (add_motor_raw reg4 (-1) 1 2 3 5 = reg4 ∧
        remove_motor reg4 (-1) = reg4)) ∧
    ((8 : Int) < 0 ∨ (maxNumMotors : Int) ≤ (8 : Int)) ∧
      (add_motor_raw reg4 8 1 2 3 5 = reg4 ∧ remove_motor reg4 8 = reg4) :=
  ⟨⟨Or.inl (by decide), out_of_range_slot_noop reg4 (-1) 1 2 3 5
      (Or.inl (by decide))⟩,
    Or.inr (by decide), out_of_range_slot_noop reg4 8 1 2 3 5
      (Or.inr (by decide))⟩

/-! ## C2 — output bounds -/

/-- C2: for every valid input (a nonnegative `min_throttle` offset that
keeps `radio_min + min_throttle ≤ radio_max`, and a cycle in which the
last-resort scale factor is well defined, i.e. no division by zero), every
enabled motor's final output lies in `[radio_min, radio_max]`, and on the
general (nonzero-throttle) path it lies in
`[radio_min + min_throttle, radio_max]`. -/
theorem motor_out_bounds (r : Registry) (p : MixParams) (inp : MixInputs)
    (prev : Fin maxNumMotors → Int)
    (hmt : 0 ≤ p.min_throttle)
    (hrange : inp.radio_min + p.min_throttle ≤ inp.radio_max)
    (hdiv : (output_armed r p inp prev).rpy_scale ≠ none)
    (i : Fin maxNumMotors) (hi : r.motor_enabled i = true) :
    inp.radio_min ≤ (output_armed r p inp prev).motor_out i ∧
    (output_armed r p inp prev).motor_out i ≤ inp.radio_max ∧
    (constrainInt16 inp.throttle_servo 0 p.max_throttle ≠ 0 →
      inp.radio_min + p.min_throttle ≤
        (output_armed r p inp prev).motor_out i) := by
  by_cases hz : constrainInt16 inp.throttle_servo 0 p.max_throttle = 0
  · rw [output_armed_zero_eq r p inp prev hz]
    have hs := spin_armed_clamped_bounds p hmt
    simp only [hi, if_true]
    refine ⟨by omega, by omega, fun hne => absurd hz hne⟩
  · rw [output_armed_general_eq r p inp prev hz]
    simp only [motor_out_general, hi, if_true, out_min, out_max]
    have hb := constrainInt16_bounds
      (if p.throttle_curve_enabled then
        p.throttle_curve (ratTrunc
          (((out_max_range r p inp + thr_adj r p inp : Int) : ℚ) +
            ((rpy_scale_step r p inp).1.getD 0) * (rpy_out r p inp i : ℚ)))
       else ratTrunc
          (((out_max_range r p inp + thr_adj r p inp : Int) : ℚ) +
            ((rpy_scale_step r p inp).1.getD 0) * (rpy_out r p inp i : ℚ)))
      (inp.radio_min + p.min_throttle) inp.radio_max (by omega)
    exact ⟨by omega, by omega, fun _ => by omega⟩

/-! ## Evaluation lemmas for neutral-stick cycles -/

lemma neutral_rp_extremes (r : Registry) (inp : MixInputs)
    (h1 : inp.roll_pwm = 0) (h2 : inp.pitch_pwm = 0) :
    rpy_low_rp r inp = 0 ∧ rpy_high_rp r inp = 0 := by
  have h := rpy_rp_zero r inp h1 h2
  unfold rpy_low_rp rpy_high_rp
  rw [h]
  exact ⟨track_low_eq_init _ _ _ (fun i _ => le_refl 0),
    track_high_eq_init _ _ _ (fun i _ => le_refl 0)⟩

lemma neutral_rpy_extremes (r : Registry) (p : MixParams) (inp : MixInputs)
    (h1 : inp.roll_pwm = 0) (h2 : inp.pitch_pwm = 0) (h3 : inp.yaw_pwm = 0)
    (hh : 0 < yaw_headroom r p inp) :
    rpy_out r p inp = (fun _ => 0) ∧
    rpy_low r p inp = 0 ∧ rpy_high r p inp = 0 := by
  have hstep := yaw_step_of_zero_request r p inp h3 hh
  have hya : yaw_applied r p inp = 0 := by unfold yaw_applied; rw [hstep]
  have hout := rpy_out_zero r p inp (rpy_rp_zero r inp h1 h2) hya
  have hrp := neutral_rp_extremes r inp h1 h2
  refine ⟨hout, ?_, ?_⟩
  · unfold rpy_low
    rw [hout, hrp.1]
    exact track_low_eq_init _ _ _ (fun i _ => le_refl 0)
  · unfold rpy_high
    rw [hout, hrp.2]
    exact track_high_eq_init _ _ _ (fun i _ => le_refl 0)

/-- Full evaluation of the general-path intermediates for the mid-throttle
neutral-stick scenario of the spec: sticks neutral, `radio_out = 1500`,
bounds `1000`/`2000`, `min_throttle = 100` — for any registry, any hover
estimate and any yaw floor. -/
lemma mid_scenario (r : Registry) (p : MixParams) (inp : MixInputs)
    (h1 : inp.roll_pwm = 0) (h2 : inp.pitch_pwm = 0) (h3 : inp.yaw_pwm = 0)
    (h4 : inp.radio_min = 1000) (h5 : inp.radio_max = 2000)
    (h6 : inp.throttle_radio_out = 1500) (h7 : p.min_throttle = 100) :
    (1500 ≤ out_max_range r p inp ∧ out_max_range r p inp ≤ 1550) ∧
    rpy_out r p inp = (fun _ => 0) ∧
    rpy_low r p inp = 0 ∧ rpy_high r p inp = 0 ∧
    yaw_step r p inp = (0, false) ∧
    thr_adj r p inp = 1500 - out_max_range r p inp ∧
    (thr_adj_step r p inp).2 = false ∧
    rpy_scale_step r p inp = (some 1, false) := by
  obtain ⟨hlo, hhi⟩ := neutral_rp_extremes r inp h1 h2
  have homid : out_mid p inp = 1550 := by
    unfold out_mid out_min out_max
    rw [h4, h5, h7]
    decide
  have hmm : motor_mid r inp = 0 := by
    unfold motor_mid
    rw [hlo, hhi]
    decide
  have homr : 1500 ≤ out_max_range r p inp ∧ out_max_range r p inp ≤ 1550 := by
    unfold out_max_range
    rw [homid, hmm, h6]
    constructor
    · exact le_min (by omega) (le_trans (by omega) (le_max_left _ _))
    · exact le_trans (min_le_left _ _) (by omega)
  have hyh : 0 < yaw_headroom r p inp := by
    unfold yaw_headroom
    have h400 : (400 : Int) ≤
        min (out_max inp - out_max_range r p inp)
          (out_max_range r p inp - out_min p inp) := by
      unfold out_max out_min
      rw [h4, h5, h7]
      exact le_min (by omega) (by omega)
    rw [hlo, hhi]
    calc (0 : Int) < 400 - Int.tdiv (0 - 0) 2 := by decide
      _ ≤ _ := le_trans (by omega) (le_max_left _ _)
  obtain ⟨hout, hlow2, hhigh2⟩ :=
    neutral_rpy_extremes r p inp h1 h2 h3 hyh
  have hstep := yaw_step_of_zero_request r p inp h3 hyh
  have hthr : thr_adj_step r p inp = (1500 - out_max_range r p inp, false) := by
    unfold thr_adj_step
    rw [hlow2, hhigh2, h6]
    have hlt0 : decide ((1500 : Int) < out_min p inp) = false := by
      unfold out_min
      rw [h4, h7]
      decide
    rw [hlt0]
    have hc1 : ¬(0 < 1500 - out_max_range r p inp) := by omega
    rw [if_neg hc1]
    unfold out_max out_min
    rw [h4, h5, h7]
    by_cases hc2 : 1500 - out_max_range r p inp < 0
    · rw [if_pos hc2]
      have e1 : min (1500 - out_max_range r p inp)
          (2000 - (0 + out_max_range r p inp)) =
            1500 - out_max_range r p inp := min_eq_left (by omega)
      have e2 : min (1000 + 100 - (0 + out_max_range r p inp)) 0 =
          1000 + 100 - (0 + out_max_range r p inp) := min_eq_left (by omega)
      rw [e1, e2]
      have e3 : max (1500 - out_max_range r p inp)
          (1000 + 100 - (0 + out_max_range r p inp)) =
            1500 - out_max_range r p inp := max_eq_left (by omega)
      rw [e3]
    · rw [if_neg hc2]
  have hta : thr_adj r p inp = 1500 - out_max_range r p inp := by
    unfold thr_adj
    rw [hthr]
  have hscale : rpy_scale_step r p inp = (some 1, false) := by
    unfold rpy_scale_step
    rw [hlow2, hhigh2, hta]
    have hc1 : ¬(0 + out_max_range r p inp + (1500 - out_max_range r p inp) <
        out_min p inp) := by
      unfold out_min
      rw [h4, h7]
      omega
    have hc2 : ¬(out_max inp <
        0 + out_max_range r p inp + (1500 - out_max_range r p inp)) := by
      unfold out_max
      rw [h5]
      omega
    rw [if_neg hc1, if_neg hc2]
  exact ⟨homr, hout, hlow2, hhigh2, hstep, hta, by rw [hthr], hscale⟩

/-- In the mid-throttle neutral-stick scenario every enabled motor's final
output is exactly the commanded `radio_out` of 1500. -/
lemma mid_scenario_motor_out (r : Registry) (p : MixParams)
    (inp : MixInputs) (prev : Fin maxNumMotors → Int)
    (h1 : inp.roll_pwm = 0) (h2 : inp.pitch_pwm = 0) (h3 : inp.yaw_pwm = 0)
    (h4 : inp.radio_min = 1000) (h5 : inp.radio_max = 2000)
    (h6 : inp.throttle_radio_out = 1500) (h7 : p.min_throttle = 100)
    (h8 : p.throttle_curve_enabled = false) :
    ∀ i, r.motor_enabled i = true →
      motor_out_general r p inp prev i = 1500 := by
  obtain ⟨homr, hout, _, _, _, hta, _, hscale⟩ :=
    mid_scenario r p inp h1 h2 h3 h4 h5 h6 h7
  intro i hi
  unfold motor_out_general
  rw [hi]
  simp only [if_true, hscale, hout, h8, if_false, Bool.false_eq_true]
  have hsum : out_max_range r p inp + thr_adj r p inp = (1500 : Int) := by
    omega
  rw [hsum]
  have hcollapse : (((1500 : Int) : ℚ) +
      (Option.getD (some 1) 0 : ℚ) * ((0 : Int) : ℚ)) = ((1500 : Int) : ℚ) := by
    push_cast
    ring
  rw [hcollapse, ratTrunc_intCast]
  unfold constrainInt16 out_min out_max
  rw [h4, h5, h7]
  decide

lemma rpy_low_nonpos (r : Registry) (p : MixParams) (inp : MixInputs) :
    rpy_low r p inp ≤ 0 :=
  le_trans (track_low_le_init _ _ _) (track_low_le_init _ _ _)

lemma rpy_high_nonneg (r : Registry) (p : MixParams) (inp : MixInputs) :
    0 ≤ rpy_high r p inp :=
  le_trans (track_high_init_le _ _ _) (track_high_init_le _ _ _)

/-! ## The division-by-zero scenario: neutral sticks, low commanded
throttle, low hover estimate -/

/-- Configuration with a hover estimate of 999 (so the yaw-room throttle
point stays below `out_min`). -/
def pDivZero : MixParams where
  min_throttle := 100
  max_throttle := 1000
  hover_out := 999
  spin_when_armed := 0
  yaw_lower_limit_pwm := 200
  throttle_curve_enabled := false
  throttle_curve := fun v => v

/-- Neutral sticks, throttle desired value 1 (so the general path runs),
`radio_out = 1001`, bounds `1000`/`2000`. -/
def inpDivZero : MixInputs where
  roll_pwm := 0
  pitch_pwm := 0
  yaw_pwm := 0
  throttle_servo := 1
  throttle_radio_out := 1001
  radio_min := 1000
  radio_max := 2000

lemma div_zero_scenario :
    rpy_low reg4 pDivZero inpDivZero = 0 ∧
    out_max_range reg4 pDivZero inpDivZero = 1001 ∧
    thr_adj reg4 pDivZero inpDivZero = 0 ∧
    rpy_scale_step reg4 pDivZero inpDivZero = (none, true) := by
  obtain ⟨hlo, hhi⟩ := neutral_rp_extremes reg4 inpDivZero rfl rfl
  have homr : out_max_range reg4 pDivZero inpDivZero = 1001 := by
    unfold out_max_range out_mid motor_mid out_min out_max
    rw [hlo, hhi]
    decide
  have hyh : 0 < yaw_headroom reg4 pDivZero inpDivZero := by
    unfold yaw_headroom out_min out_max
    rw [hlo, hhi, homr]
    decide
  obtain ⟨hout, hlow2, hhigh2⟩ :=
    neutral_rpy_extremes reg4 pDivZero inpDivZero rfl rfl rfl hyh
  have hthr : thr_adj_step reg4 pDivZero inpDivZero = (0, true) := by
    unfold thr_adj_step out_min out_max
    rw [hlow2, hhigh2, homr]
    decide
  have hta : thr_adj reg4 pDivZero inpDivZero = 0 := by
    unfold thr_adj
    rw [hthr]
  have hscale : rpy_scale_step reg4 pDivZero inpDivZero = (none, true) := by
    unfold rpy_scale_step out_min out_max
    rw [hlow2, hhigh2, homr, hta]
    decide
  exact ⟨hlow2, homr, hta, hscale⟩

/-! ## C5 — the last-resort scaling step can divide by zero -/

/-- C5: there is an input on the general path of `output_armed` for which
the low-bound branch condition of the last-resort scaling step holds while
its divisor `rpy_low` is exactly zero, so the computed scale factor is a
division by zero (`rpy_scale = none` in this embedding). -/
theorem scale_division_by_zero_reachable :
    ∃ (r : Registry) (p : MixParams) (inp : MixInputs)
      (prev : Fin maxNumMotors → Int),
      constrainInt16 inp.throttle_servo 0 p.max_throttle ≠ 0 ∧
      (output_armed r p inp prev).rpy_low +
          (output_armed r p inp prev).out_max_range +
          (output_armed r p inp prev).thr_adj < out_min p inp ∧
      (output_armed r p inp prev).rpy_low = 0 ∧
      (output_armed r p inp prev).rpy_scale = none := by
  obtain ⟨hlow2, homr, hta, hscale⟩ := div_zero_scenario
  refine ⟨reg4, pDivZero, inpDivZero, prev0, by decide, ?_, ?_, ?_⟩ <;>
    rw [output_armed_general_eq reg4 pDivZero inpDivZero prev0 (by decide)]
  · show rpy_low reg4 pDivZero inpDivZero +
      out_max_range reg4 pDivZero inpDivZero +
      thr_adj reg4 pDivZero inpDivZero < out_min pDivZero inpDivZero
    rw [hlow2, homr, hta]
    decide
  · exact hlow2
  · show (rpy_scale_step reg4 pDivZero inpDivZero).1 = none
    rw [hscale]

/-! ## C4 — the last-resort scale factor never amplifies -/

/-- C4 fails as stated: at this concrete general-path input the last-resort
scale factor is not a number at all — the taken branch divides by zero
(`rpy_scale = none`), so it is in particular not a value `≤ 1`. -/
theorem rpy_scale_undefined_cex :
    constrainInt16 inpDivZero.throttle_servo 0 pDivZero.max_throttle ≠ 0 ∧
    (output_armed reg4 pDivZero inpDivZero prev0).rpy_scale = none := by
  obtain ⟨_, _, _, hscale⟩ := div_zero_scenario
  have hnone : (output_armed reg4 pDivZero inpDivZero prev0).rpy_scale =
      none := by
    rw [output_armed_general_eq reg4 pDivZero inpDivZero prev0 (by decide)]
    show (rpy_scale_step reg4 pDivZero inpDivZero).1 = none
    rw [hscale]
  exact ⟨by decide, hnone⟩

/-- C4 amended: whenever the last-resort scale factor is well defined (the
taken branch's divisor is nonzero, so no division by zero occurs),
`rpy_scale ≤ 1` — the uniform scaling never amplifies the roll+pitch+yaw
contribution. -/
theorem rpy_scale_le_one (r : Registry) (p : MixParams) (inp : MixInputs)
    (prev : Fin maxNumMotors → Int)
    (hz : constrainInt16 inp.throttle_servo 0 p.max_throttle ≠ 0) (s : ℚ)
    (hs : (output_armed r p inp prev).rpy_scale = some s) : s ≤ 1 := by
  rw [output_armed_general_eq r p inp prev hz] at hs
  have hs' : (rpy_scale_step r p inp).1 = some s := hs
  unfold rpy_scale_step at hs'
  by_cases h1 : rpy_low r p inp + out_max_range r p inp + thr_adj r p inp <
      out_min p inp
  · rw [if_pos h1] at hs'
    by_cases h2 : rpy_low r p inp = 0
    · rw [if_pos h2] at hs'
      exact Option.noConfusion hs'
    · rw [if_neg h2] at hs'
      have hval := Option.some.inj hs'
      have hlt : rpy_low r p inp < 0 :=
        lt_of_le_of_ne (rpy_low_nonpos r p inp) h2
      have hgt : rpy_low r p inp <
          out_min p inp - thr_adj r p inp - out_max_range r p inp := by omega
      rw [← hval, div_le_iff_of_neg (by exact_mod_cast hlt), one_mul]
      exact_mod_cast le_of_lt hgt
  · rw [if_neg h1] at hs'
    by_cases h3 : out_max inp <
        rpy_high r p inp + out_max_range r p inp + thr_adj r p inp
    · rw [if_pos h3] at hs'
      by_cases h4 : rpy_high r p inp = 0
      · rw [if_pos h4] at hs'
        exact Option.noConfusion hs'
      · rw [if_neg h4] at hs'
        have hval := Option.some.inj hs'
        have hpos : 0 < rpy_high r p inp :=
          lt_of_le_of_ne (rpy_high_nonneg r p inp) (Ne.symm h4)
        have hlt : out_max inp - thr_adj r p inp - out_max_range r p inp <
            rpy_high r p inp := by omega
        rw [← hval, div_le_one (by exact_mod_cast hpos)]
        exact_mod_cast le_of_lt hlt
    · rw [if_neg h3] at hs'
      have hval := Option.some.inj hs'
      rw [← hval]

/-- Mid-throttle neutral-stick inputs: throttle desired value 500,
`radio_out = 1500`. -/
def inpMid : MixInputs where
  roll_pwm := 0
  pitch_pwm := 0
  yaw_pwm := 0
  throttle_servo := 500
  throttle_radio_out := 1500
  radio_min := 1000
  radio_max := 2000

lemma mid_rpy_scale_some_one :
    (output_armed reg4 params0 inpMid prev0).rpy_scale = some 1 := by
  obtain ⟨_, _, _, _, _, _, _, hscale⟩ :=
    mid_scenario reg4 params0 inpMid rfl rfl rfl rfl rfl rfl rfl
  rw [output_armed_general_eq reg4 params0 inpMid prev0 (by decide)]
  show (rpy_scale_step reg4 params0 inpMid).1 = some 1
  rw [hscale]

theorem rpy_scale_le_one_witness :
    constrainInt16 inpMid.throttle_servo 0 params0.max_throttle ≠ 0 ∧
    (output_armed reg4 params0 inpMid prev0).rpy_scale = some 1 ∧
    (1 : ℚ) ≤ 1 :=
  ⟨by decide, mid_rpy_scale_some_one,
    rpy_scale_le_one reg4 params0 inpMid prev0 (by decide) 1
      mid_rpy_scale_some_one⟩

/-! ## C6 — yaw clamping and the yaw saturation flag -/

/-- C6 amended: on the general path the applied yaw equals the requested yaw
clamped sign-preservingly into `[-yaw_headroom, yaw_headroom]`; the clamp
step raises its flag iff the requested magnitude is at least the headroom
(so at exact equality the flag is raised even though the command is not
reduced); and the cycle's final `limit.yaw` is that flag OR-ed with the
last-resort scaling step's flag. -/
theorem yaw_clamp_flag_spec (r : Registry) (p : MixParams) (inp : MixInputs)
    (prev : Fin maxNumMotors → Int)
    (hz : constrainInt16 inp.throttle_servo 0 p.max_throttle ≠ 0)
    (hyl : 0 ≤ p.yaw_lower_limit_pwm) :
    (output_armed r p inp prev).yaw_applied =
      max (min inp.yaw_pwm (yaw_headroom r p inp))
        (-(yaw_headroom r p inp)) ∧
    ((yaw_step r p inp).2 = true ↔
      yaw_headroom r p inp ≤ |inp.yaw_pwm|) ∧
    (output_armed r p inp prev).limit_yaw =
      ((yaw_step r p inp).2 || (rpy_scale_step r p inp).2) := by
  rw [output_armed_general_eq r p inp prev hz]
  have hH : 0 ≤ yaw_headroom r p inp :=
    le_trans hyl (le_max_right _ _)
  rcases le_or_lt 0 inp.yaw_pwm with hy | hy
  · rw [abs_of_nonneg hy]
    by_cases hcl : inp.yaw_pwm < yaw_headroom r p inp
    · have hstep : yaw_step r p inp = (inp.yaw_pwm, false) := by
        unfold yaw_step
        rw [if_pos hy, if_pos hcl]
      refine ⟨?_, ?_, rfl⟩
      · show yaw_applied r p inp = _
        unfold yaw_applied
        rw [hstep]
        show inp.yaw_pwm = _
        rw [min_def, max_def]
        split_ifs <;> omega
      · rw [hstep]
        exact iff_of_false (by simp) (by omega)
    · have hstep : yaw_step r p inp = (yaw_headroom r p inp, true) := by
        unfold yaw_step
        rw [if_pos hy, if_neg hcl]
      refine ⟨?_, ?_, rfl⟩
      · show yaw_applied r p inp = _
        unfold yaw_applied
        rw [hstep]
        show yaw_headroom r p inp = _
        rw [min_def, max_def]
        split_ifs <;> omega
      · rw [hstep]
        exact iff_of_true rfl (by omega)
  · rw [abs_of_neg hy]
    by_cases hcl : -(yaw_headroom r p inp) < inp.yaw_pwm
    · have hstep : yaw_step r p inp = (inp.yaw_pwm, false) := by
        unfold yaw_step
        rw [if_neg (not_le.mpr hy), if_pos hcl]
      refine ⟨?_, ?_, rfl⟩
      · show yaw_applied r p inp = _
        unfold yaw_applied
        rw [hstep]
        show inp.yaw_pwm = _
        rw [min_def, max_def]
        split_ifs <;> omega
      · rw [hstep]
        exact iff_of_false (by simp) (by omega)
    · have hstep : yaw_step r p inp = (-(yaw_headroom r p inp), true) := by
        unfold yaw_step
        rw [if_neg (not_le.mpr hy), if_neg hcl]
      refine ⟨?_, ?_, rfl⟩
      · show yaw_applied r p inp = _
        unfold yaw_applied
        rw [hstep]
        show -(yaw_headroom r p inp) = _
        rw [min_def, max_def]
        split_ifs <;> omega
      · rw [hstep]
        exact iff_of_true rfl (by omega)

/-- Yaw request sitting exactly on the allowed headroom: sticks otherwise
neutral, requested yaw 400, mid throttle. -/
def inpYawEdge : MixInputs where
  roll_pwm := 0
  pitch_pwm := 0
  yaw_pwm := 400
  throttle_servo := 500
  throttle_radio_out := 1500
  radio_min := 1000
  radio_max := 2000

lemma yaw_edge_eval :
    yaw_headroom reg4 params0 inpYawEdge = 400 ∧
    yaw_step reg4 params0 inpYawEdge = (400, true) := by
  obtain ⟨hlo, hhi⟩ := neutral_rp_extremes reg4 inpYawEdge rfl rfl
  have homr : out_max_range reg4 params0 inpYawEdge = 1500 := by
    unfold out_max_range out_mid motor_mid out_min out_max
    rw [hlo, hhi]
    decide
  have hyh : yaw_headroom reg4 params0 inpYawEdge = 400 := by
    unfold yaw_headroom out_min out_max
    rw [hlo, hhi, homr]
    decide
  have hstep : yaw_step reg4 params0 inpYawEdge = (400, true) := by
    unfold yaw_step
    rw [hyh]
    decide
  exact ⟨hyh, hstep⟩

/-- C6 fails as stated: with requested yaw exactly equal to the allowed
headroom (both 400), the cycle sets `limit.yaw` although the applied yaw
equals the requested yaw — the flag is not equivalent to a strict
reduction. -/
theorem yaw_flag_at_boundary_cex :
    constrainInt16 inpYawEdge.throttle_servo 0 params0.max_throttle ≠ 0 ∧
    (output_armed reg4 params0 inpYawEdge prev0).limit_yaw = true ∧
    (output_armed reg4 params0 inpYawEdge prev0).yaw_applied =
      inpYawEdge.yaw_pwm := by
  obtain ⟨hyh, hstep⟩ := yaw_edge_eval
  refine ⟨by decide, ?_, ?_⟩ <;>
    rw [output_armed_general_eq reg4 params0 inpYawEdge prev0 (by decide)]
  · show ((yaw_step reg4 params0 inpYawEdge).2 ||
      (rpy_scale_step reg4 params0 inpYawEdge).2) = true
    rw [hstep]
    simp
  · show yaw_applied reg4 params0 inpYawEdge = inpYawEdge.yaw_pwm
    unfold yaw_applied
    rw [hstep]
    decide

theorem yaw_clamp_flag_spec_witness :
    (constrainInt16 inpYawEdge.throttle_servo 0 params0.max_throttle ≠ 0 ∧
      0 ≤ params0.yaw_lower_limit_pwm) ∧
    ((output_armed reg4 params0 inpYawEdge prev0).yaw_applied =
        max (min inpYawEdge.yaw_pwm (yaw_headroom reg4 params0 inpYawEdge))
          (-(yaw_headroom reg4 params0 inpYawEdge)) ∧
      ((yaw_step reg4 params0 inpYawEdge).2 = true ↔
        yaw_headroom reg4 params0 inpYawEdge ≤ |inpYawEdge.yaw_pwm|) ∧
      (output_armed reg4 params0 inpYawEdge prev0).limit_yaw =
        ((yaw_step reg4 params0 inpYawEdge).2 ||
          (rpy_scale_step reg4 params0 inpYawEdge).2)) :=
  ⟨⟨by decide, by decide⟩,
    yaw_clamp_flag_spec reg4 params0 inpYawEdge prev0 (by decide)
      (by decide)⟩

/-- Slot 0, used by concrete statements. -/
def m0 : Fin maxNumMotors := ⟨0, by decide⟩

theorem motor_out_bounds_witness :
    (0 ≤ params0.min_throttle ∧
      inpMid.radio_min + params0.min_throttle ≤ inpMid.radio_max ∧
      (output_armed reg4 params0 inpMid prev0).rpy_scale ≠ none ∧
      reg4.motor_enabled m0 = true) ∧
    (inpMid.radio_min ≤
        (output_armed reg4 params0 inpMid prev0).motor_out m0 ∧
      (output_armed reg4 params0 inpMid prev0).motor_out m0 ≤
        inpMid.radio_max ∧
      (constrainInt16 inpMid.throttle_servo 0 params0.max_throttle ≠ 0 →
        inpMid.radio_min + params0.min_throttle ≤
          (output_armed reg4 params0 inpMid prev0).motor_out m0)) :=
  ⟨⟨by decide, by decide,
      by rw [mid_rpy_scale_some_one]; exact Option.some_ne_none 1, by decide⟩,
    motor_out_bounds reg4 params0 inpMid prev0 (by decide) (by decide)
      (by rw [mid_rpy_scale_some_one]; exact Option.some_ne_none 1) m0
      (by decide)⟩

/-! ## C3 — the concrete 4-motor scenario -/

/-- The spec's concrete scenario registry: four motors at 45°, 135°, 225°,
315° with yaw factors `+1, -1, +1, -1`, registered through `add_motor`
(whose roll/pitch factors go through the abstracted cosine `c`). -/
def c3_registry (c : ℚ → ℚ) : Registry :=
  add_motor c
    (add_motor c
      (add_motor c
        (add_motor c emptyRegistry 0 45 1 1)
        1 135 (-1) 2)
      2 225 1 3)
    3 315 (-1) 4

lemma c3_enabled (c : ℚ → ℚ) (i : Fin maxNumMotors) :
    (c3_registry c).motor_enabled i = decide (i.val < 4) := by
  fin_cases i <;>
    simp [c3_registry, add_motor, add_motor_raw, emptyRegistry,
      Function.update, maxNumMotors, Fin.ext_iff] <;>
    omega

/-- C3 amended: in the registered 45°/135°/225°/315° quad scenario
(`radio_min = 1000`, `radio_max = 2000`, `min_throttle = 100`, throttle
desired value 500 with `radio_out = 1500`, roll = pitch = yaw = 0, no
throttle curve), all four motors output exactly 1500 — the commanded
`radio_out`, not the achievable-range midpoint 1550 — and the three
saturation flags are all false; this holds for every geometry function and
every hover estimate. -/
theorem c3_quad_outputs_1500 (c : ℚ → ℚ) (p : MixParams) (inp : MixInputs)
    (prev : Fin maxNumMotors → Int)
    (h1 : inp.roll_pwm = 0) (h2 : inp.pitch_pwm = 0) (h3 : inp.yaw_pwm = 0)
    (h4 : inp.radio_min = 1000) (h5 : inp.radio_max = 2000)
    (h6 : inp.throttle_radio_out = 1500) (h7 : p.min_throttle = 100)
    (h8 : p.throttle_curve_enabled = false)
    (h9 : inp.throttle_servo = 500) (h10 : 500 ≤ p.max_throttle) :
    (∀ i : Fin maxNumMotors, i.val < 4 →
      (c3_registry c).motor_enabled i = true) ∧
    (∀ i, (c3_registry c).motor_enabled i = true →
      (output_armed (c3_registry c) p inp prev).motor_out i = 1500) ∧
    (output_armed (c3_registry c) p inp prev).limit_roll_pitch = false ∧
    (output_armed (c3_registry c) p inp prev).limit_yaw = false ∧
    (output_armed (c3_registry c) p inp prev).limit_throttle = false := by
  have hz : constrainInt16 inp.throttle_servo 0 p.max_throttle ≠ 0 := by
    unfold constrainInt16
    rw [h9]
    split_ifs <;> omega
  obtain ⟨_, _, _, _, hstep, _, hthr2, hscale⟩ :=
    mid_scenario (c3_registry c) p inp h1 h2 h3 h4 h5 h6 h7
  rw [output_armed_general_eq (c3_registry c) p inp prev hz]
  refine ⟨fun i hi => ?_, ?_, ?_, ?_, ?_⟩
  · rw [c3_enabled]
    simpa using hi
  · exact mid_scenario_motor_out (c3_registry c) p inp prev
      h1 h2 h3 h4 h5 h6 h7 h8
  · show (rpy_scale_step (c3_registry c) p inp).2 = false
    rw [hscale]
  · show ((yaw_step (c3_registry c) p inp).2 ||
      (rpy_scale_step (c3_registry c) p inp).2) = false
    rw [hstep, hscale]
    decide
  · exact hthr2

/-- C3 fails as stated: at the scenario's inputs motor 0 outputs 1500, not
the claimed 1550. -/
theorem c3_quad_not_1550_cex :
    (c3_registry (fun _ => 0)).motor_enabled m0 = true ∧
    (output_armed (c3_registry (fun _ => 0)) params0 inpMid prev0).motor_out
        m0 = 1500 ∧
    (output_armed (c3_registry (fun _ => 0)) params0 inpMid prev0).motor_out
        m0 ≠ 1550 := by
  have hen : (c3_registry (fun _ => 0)).motor_enabled m0 = true := by
    rw [c3_enabled]
    decide
  have hz : constrainInt16 inpMid.throttle_servo 0 params0.max_throttle ≠
      0 := by decide
  have hout : (output_armed (c3_registry (fun _ => 0)) params0 inpMid
      prev0).motor_out m0 = 1500 := by
    rw [output_armed_general_eq (c3_registry (fun _ => 0)) params0 inpMid
      prev0 hz]
    exact mid_scenario_motor_out (c3_registry (fun _ => 0)) params0 inpMid
      prev0 rfl rfl rfl rfl rfl rfl rfl rfl m0 hen
  refine ⟨hen, hout, ?_⟩
  rw [hout]
  decide

theorem c3_quad_outputs_1500_witness :
    (inpMid.roll_pwm = 0 ∧ inpMid.pitch_pwm = 0 ∧ inpMid.yaw_pwm = 0 ∧
      inpMid.radio_min = 1000 ∧ inpMid.radio_max = 2000 ∧
      inpMid.throttle_radio_out = 1500 ∧ params0.min_throttle = 100 ∧
      params0.throttle_curve_enabled = false ∧
      inpMid.throttle_servo = 500 ∧ 500 ≤ params0.max_throttle) ∧
    ((∀ i : Fin maxNumMotors, i.val < 4 →
        (c3_registry (fun q => q)).motor_enabled i = true) ∧
      (∀ i, (c3_registry (fun q => q)).motor_enabled i = true →
        (output_armed (c3_registry (fun q => q)) params0 inpMid
          prev0).motor_out i = 1500) ∧
      (output_armed (c3_registry (fun q => q)) params0 inpMid
        prev0).limit_roll_pitch = false ∧
      (output_armed (c3_registry (fun q => q)) params0 inpMid
        prev0).limit_yaw = false ∧
      (output_armed (c3_registry (fun q => q)) params0 inpMid
        prev0).limit_throttle = false) :=
  ⟨⟨rfl, rfl, rfl, rfl, rfl, rfl, rfl, rfl, rfl, by decide⟩,
    c3_quad_outputs_1500 (fun q => q) params0 inpMid prev0
      rfl rfl rfl rfl rfl rfl rfl rfl rfl (by decide)⟩

/-! ## C7 — the registry invariant is preserved by all four mutators -/

lemma countP_update_true_of (l : List (Fin maxNumMotors)) (hl : l.Nodup)
    (f : Fin maxNumMotors → Bool) (i : Fin maxNumMotors) (hi : i ∈ l)
    (hf : f i = false) :
    l.countP (fun j => Function.update f i true j) =
      l.countP (fun j => f j) + 1 := by
  induction l with
  | nil => cases hi
  | cons a t ih =>
    have hat : a ∉ t := (List.nodup_cons.mp hl).1
    have hnt : t.Nodup := (List.nodup_cons.mp hl).2
    rw [List.countP_cons, List.countP_cons]
    rcases List.mem_cons.mp hi with rfl | hit
    · have hcongr : t.countP (fun j => Function.update f i true j) =
          t.countP (fun j => f j) := by
        apply List.countP_congr
        intro j hj
        have hja : j ≠ i := fun h => hat (h ▸ hj)
        simp [Function.update_noteq hja]
      rw [hcongr, Function.update_same, hf]
      simp
    · have hai : a ≠ i := fun h => hat (h ▸ hit)
      rw [Function.update_noteq hai, ih hnt hit]
      omega

lemma countP_update_false_of (l : List (Fin maxNumMotors)) (hl : l.Nodup)
    (f : Fin maxNumMotors → Bool) (i : Fin maxNumMotors) (hi : i ∈ l)
    (hf : f i = true) :
    l.countP (fun j => f j) =
      l.countP (fun j => Function.update f i false j) + 1 := by
  induction l with
  | nil => cases hi
  | cons a t ih =>
    have hat : a ∉ t := (List.nodup_cons.mp hl).1
    have hnt : t.Nodup := (List.nodup_cons.mp hl).2
    rw [List.countP_cons, List.countP_cons]
    rcases List.mem_cons.mp hi with rfl | hit
    · have hcongr : t.countP (fun j => Function.update f i false j) =
          t.countP (fun j => f j) := by
        apply List.countP_congr
        intro j hj
        have hja : j ≠ i := fun h => hat (h ▸ hj)
        simp [Function.update_noteq hja]
      rw [hcongr, Function.update_same, hf]
      simp
    · have hai : a ≠ i := fun h => hat (h ▸ hit)
      rw [Function.update_noteq hai, ih hnt hit]
      omega

lemma countP_le_capacity (f : Fin maxNumMotors → Bool) :
    (List.finRange maxNumMotors).countP (fun j => f j) ≤ maxNumMotors := by
  calc (List.finRange maxNumMotors).countP (fun j => f j) ≤
      (List.finRange maxNumMotors).length := List.countP_le_length _
    _ = maxNumMotors := List.length_finRange maxNumMotors

/-- The invariant survives the in-range body of `add_motor_raw`, for an
arbitrary slot `i`. -/
lemma add_body_inv (r : Registry) (hr : RegistryInv r)
    (i : Fin maxNumMotors) (rf pf yf : ℚ) (t : Nat) :
    RegistryInv { r with
      motor_enabled := Function.update r.motor_enabled i true
      num_motors := if r.motor_enabled i then r.num_motors
                    else (r.num_motors + 1) % 256
      roll_factor := Function.update r.roll_factor i rf
      pitch_factor := Function.update r.pitch_factor i pf
      yaw_factor := Function.update r.yaw_factor i yf
      test_order := Function.update r.test_order i t } := by
  have hfactors : ∀ j, Function.update r.motor_enabled i true j = false →
      Function.update r.roll_factor i rf j = 0 ∧
      Function.update r.pitch_factor i pf j = 0 ∧
      Function.update r.yaw_factor i yf j = 0 := by
    intro j hj
    have hji : j ≠ i := by
      intro hcontra
      rw [hcontra, Function.update_same] at hj
      cases hj
    rw [Function.update_noteq hji] at hj
    rw [Function.update_noteq hji, Function.update_noteq hji,
      Function.update_noteq hji]
    exact hr.2 j hj
  by_cases he : r.motor_enabled i = true
  · refine ⟨?_, hfactors⟩
    show (List.finRange maxNumMotors).countP
        (fun j => Function.update r.motor_enabled i true j) =
      (if r.motor_enabled i then r.num_motors else (r.num_motors + 1) % 256)
    rw [if_pos he]
    have heq : Function.update r.motor_enabled i true = r.motor_enabled := by
      rw [← he]
      exact Function.update_eq_self i r.motor_enabled
    rw [heq]
    exact hr.1
  · have he' : r.motor_enabled i = false := by
      cases hv : r.motor_enabled i
      · rfl
      · exact absurd hv he
    refine ⟨?_, hfactors⟩
    show (List.finRange maxNumMotors).countP
        (fun j => Function.update r.motor_enabled i true j) =
      (if r.motor_enabled i then r.num_motors else (r.num_motors + 1) % 256)
    rw [if_neg he,
      countP_update_true_of _ (List.nodup_finRange maxNumMotors)
        r.motor_enabled i (List.mem_finRange i) he', hr.1]
    have hle : r.num_motors ≤ maxNumMotors := by
      rw [← hr.1]
      exact countP_le_capacity r.motor_enabled
    have h8 : maxNumMotors = 8 := rfl
    omega

lemma add_motor_raw_inv (r : Registry) (hr : RegistryInv r) (n : Int)
    (rf pf yf : ℚ) (t : Nat) :
    RegistryInv (add_motor_raw r n rf pf yf t) := by
  unfold add_motor_raw
  split_ifs with h
  · exact add_body_inv r hr _ rf pf yf t
  · exact hr

/-- The invariant survives the in-range body of `remove_motor`, for an
arbitrary slot `i`. -/
lemma remove_body_inv (r : Registry) (hr : RegistryInv r)
    (i : Fin maxNumMotors) :
    RegistryInv { r with
      num_motors := if r.motor_enabled i then (r.num_motors + 255) % 256
                    else r.num_motors
      motor_enabled := Function.update r.motor_enabled i false
      roll_factor := Function.update r.roll_factor i 0
      pitch_factor := Function.update r.pitch_factor i 0
      yaw_factor := Function.update r.yaw_factor i 0 } := by
  have hfactors : ∀ j, Function.update r.motor_enabled i false j = false →
      Function.update r.roll_factor i 0 j = 0 ∧
      Function.update r.pitch_factor i 0 j = 0 ∧
      Function.update r.yaw_factor i 0 j = 0 := by
    intro j hj
    by_cases hji : j = i
    · subst hji
      rw [Function.update_same, Function.update_same, Function.update_same]
      exact ⟨rfl, rfl, rfl⟩
    · rw [Function.update_noteq hji] at hj
      rw [Function.update_noteq hji, Function.update_noteq hji,
        Function.update_noteq hji]
      exact hr.2 j hj
  by_cases he : r.motor_enabled i = true
  · refine ⟨?_, hfactors⟩
    show (List.finRange maxNumMotors).countP
        (fun j => Function.update r.motor_enabled i false j) =
      (if r.motor_enabled i then (r.num_motors + 255) % 256
       else r.num_motors)
    rw [if_pos he]
    have hcnt := countP_update_false_of _ (List.nodup_finRange maxNumMotors)
      r.motor_enabled i (List.mem_finRange i) he
    rw [hr.1] at hcnt
    have hle : r.num_motors ≤ maxNumMotors := by
      rw [← hr.1]
      exact countP_le_capacity r.motor_enabled
    have h8 : maxNumMotors = 8 := rfl
    omega
  · have he' : r.motor_enabled i = false := by
      cases hv : r.motor_enabled i
      · rfl
      · exact absurd hv he
    refine ⟨?_, hfactors⟩
    show (List.finRange maxNumMotors).countP
        (fun j => Function.update r.motor_enabled i false j) =
      (if r.motor_enabled i then (r.num_motors + 255) % 256
       else r.num_motors)
    rw [if_neg he]
    have heq : Function.update r.motor_enabled i false =
        r.motor_enabled := by
      rw [← he']
      exact Function.update_eq_self i r.motor_enabled
    rw [heq]
    exact hr.1

lemma remove_motor_inv (r : Registry) (hr : RegistryInv r) (n : Int) :
    RegistryInv (remove_motor r n) := by
  unfold remove_motor
  split_ifs with h
  · exact remove_body_inv r hr _
  · exact hr

/-- A slot that has been removed: disabled with all three factors zero. -/
def removedSlot (r : Registry) (i : Fin maxNumMotors) : Prop :=
  r.motor_enabled i = false ∧ r.roll_factor i = 0 ∧
  r.pitch_factor i = 0 ∧ r.yaw_factor i = 0

lemma removed_body_keeps (r : Registry) (k : Fin maxNumMotors)
    (i : Fin maxNumMotors) (h : removedSlot r i) :
    removedSlot { r with
      num_motors := if r.motor_enabled k then (r.num_motors + 255) % 256
                    else r.num_motors
      motor_enabled := Function.update r.motor_enabled k false
      roll_factor := Function.update r.roll_factor k 0
      pitch_factor := Function.update r.pitch_factor k 0
      yaw_factor := Function.update r.yaw_factor k 0 } i := by
  by_cases hik : i = k
  · subst hik
    exact ⟨Function.update_same _ _ _, Function.update_same _ _ _,
      Function.update_same _ _ _, Function.update_same _ _ _⟩
  · exact ⟨(Function.update_noteq hik _ _).trans h.1,
      (Function.update_noteq hik _ _).trans h.2.1,
      (Function.update_noteq hik _ _).trans h.2.2.1,
      (Function.update_noteq hik _ _).trans h.2.2.2⟩

lemma remove_motor_keeps_removed (r : Registry) (n : Int)
    (i : Fin maxNumMotors) (h : removedSlot r i) :
    removedSlot (remove_motor r n) i := by
  unfold remove_motor
  split_ifs with hc
  · exact removed_body_keeps r _ i h
  · exact h

lemma remove_motor_removes (r : Registry) (i : Fin maxNumMotors) :
    removedSlot (remove_motor r ((i : Nat) : Int)) i := by
  unfold remove_motor
  have hc : 0 ≤ ((i : Nat) : Int) ∧ ((i : Nat) : Int) < (maxNumMotors : Int) := by
    have := i.isLt
    simp only [maxNumMotors] at this ⊢
    omega
  rw [dif_pos hc]
  have hk : (⟨((i : Nat) : Int).toNat, by
      simp only [maxNumMotors] at hc ⊢; omega⟩ : Fin maxNumMotors) = i := by
    apply Fin.ext
    simp
  show removedSlot { r with
      num_motors := if r.motor_enabled ⟨((i : Nat) : Int).toNat, _⟩ then
          (r.num_motors + 255) % 256 else r.num_motors
      motor_enabled := Function.update r.motor_enabled
        ⟨((i : Nat) : Int).toNat, _⟩ false
      roll_factor := Function.update r.roll_factor
        ⟨((i : Nat) : Int).toNat, _⟩ 0
      pitch_factor := Function.update r.pitch_factor
        ⟨((i : Nat) : Int).toNat, _⟩ 0
      yaw_factor := Function.update r.yaw_factor
        ⟨((i : Nat) : Int).toNat, _⟩ 0 } i
  rw [hk]
  exact ⟨Function.update_same _ _ _, Function.update_same _ _ _,
    Function.update_same _ _ _, Function.update_same _ _ _⟩

lemma fold_remove_preserves (l : List Nat) (r : Registry)
    (i : Fin maxNumMotors) (h : removedSlot r i) :
    removedSlot (l.foldl (fun s k => remove_motor s (k : Int)) r) i := by
  induction l generalizing r with
  | nil => exact h
  | cons a t ih => exact ih _ (remove_motor_keeps_removed r _ i h)

lemma fold_remove_all (l : List Nat) (r : Registry) (i : Fin maxNumMotors)
    (hi : (i : Nat) ∈ l) :
    removedSlot (l.foldl (fun s k => remove_motor s (k : Int)) r) i := by
  induction l generalizing r with
  | nil => cases hi
  | cons a t ih =>
    rcases List.mem_cons.mp hi with hia | hit
    · by_cases hmem : (i : Nat) ∈ t
      · exact ih _ hmem
      · have h1 : removedSlot (remove_motor r (a : Int)) i := by
          rw [← hia]
          exact remove_motor_removes r i
        exact fold_remove_preserves t _ i h1
    · exact ih _ hit

lemma remove_all_motors_inv (r : Registry) :
    RegistryInv (remove_all_motors r) := by
  have hall : ∀ i, removedSlot
      ((List.range maxNumMotors).foldl
        (fun s k => remove_motor s (k : Int)) r) i := by
    intro i
    exact fold_remove_all _ r i (List.mem_range.mpr i.isLt)
  constructor
  · show (List.finRange maxNumMotors).countP _ = 0
    rw [List.countP_eq_zero]
    intro a _
    show ¬((List.range maxNumMotors).foldl
        (fun s k => remove_motor s (k : Int)) r).motor_enabled a = true
    rw [(hall a).1]
    decide
  · intro j _
    exact ⟨(hall j).2.1, (hall j).2.2.1, (hall j).2.2.2⟩

/-- C7: the registry invariant — the enabled-slot count equals the
`_num_motors` counter, and every disabled slot's three factors are zero —
is preserved by `add_motor_raw`, `add_motor`, `remove_motor` and
`remove_all_motors`, for every slot argument (in range or not) and every
factor/order argument. -/
theorem registry_inv_preserved (r : Registry) (hr : RegistryInv r)
    (n : Int) (rf pf yf : ℚ) (t : Nat) (c : ℚ → ℚ) (ang yfac : ℚ) :
    RegistryInv (add_motor_raw r n rf pf yf t) ∧
    RegistryInv (add_motor c r n ang yfac t) ∧
    RegistryInv (remove_motor r n) ∧
    RegistryInv (remove_all_motors r) :=
  ⟨add_motor_raw_inv r hr n rf pf yf t,
    add_motor_raw_inv r hr n (c (ang + 90)) (c ang) yfac t,
    remove_motor_inv r hr n,
    remove_all_motors_inv r⟩

theorem registry_inv_preserved_witness :
    RegistryInv emptyRegistry ∧
    (RegistryInv (add_motor_raw emptyRegistry 2 1 1 (-1) 3) ∧
      RegistryInv (add_motor (fun q => q) emptyRegistry 2 45 (-1) 3) ∧
      RegistryInv (remove_motor emptyRegistry 2) ∧
      RegistryInv (remove_all_motors emptyRegistry)) :=
  ⟨by decide,
    registry_inv_preserved emptyRegistry (by decide) 2 1 1 (-1) 3
      (fun q => q) 45 (-1)⟩

/-! ## C9 — the test sequencer's firing order -/

lemma fold_min_le_init (g : Fin maxNumMotors → Nat)
    (l : List (Fin maxNumMotors)) :
    ∀ a : Nat,
      l.foldl (fun acc i => if g i < acc then g i else acc) a ≤ a := by
  induction l with
  | nil => intro a; simp
  | cons j t ih =>
    intro a
    have hstep : (if g j < a then g j else a) ≤ a := by
      split_ifs <;> omega
    exact le_trans (ih _) hstep

lemma fold_min_le_elem (g : Fin maxNumMotors → Nat)
    (l : List (Fin maxNumMotors)) (j : Fin maxNumMotors) (hj : j ∈ l) :
    ∀ a : Nat,
      l.foldl (fun acc i => if g i < acc then g i else acc) a ≤ g j := by
  induction l with
  | nil => cases hj
  | cons b t ih =>
    intro a
    rcases List.mem_cons.mp hj with rfl | hjt
    · have hstep : (if g j < a then g j else a) ≤ g j := by
        split_ifs <;> omega
      exact le_trans (fold_min_le_init g t _) hstep
    · exact ih hjt _

lemma fold_max_init_le (g : Fin maxNumMotors → Nat)
    (l : List (Fin maxNumMotors)) :
    ∀ a : Nat,
      a ≤ l.foldl (fun acc i => if acc < g i then g i else acc) a := by
  induction l with
  | nil => intro a; simp
  | cons j t ih =>
    intro a
    have hstep : a ≤ (if a < g j then g j else a) := by
      split_ifs <;> omega
    exact le_trans hstep (ih _)

lemma fold_max_elem_le (g : Fin maxNumMotors → Nat)
    (l : List (Fin maxNumMotors)) (j : Fin maxNumMotors) (hj : j ∈ l) :
    ∀ a : Nat,
      g j ≤ l.foldl (fun acc i => if acc < g i then g i else acc) a := by
  induction l with
  | nil => cases hj
  | cons b t ih =>
    intro a
    rcases List.mem_cons.mp hj with rfl | hjt
    · have hstep : g j ≤ (if a < g j then g j else a) := by
        split_ifs <;> omega
      exact le_trans hstep (fold_max_init_le g t _)
    · exact ih hjt _

/-- Both `min_order`/`max_order` bound the test order of every slot, enabled or
not (the source scans all slots). -/
lemma test_order_bounds (r : Registry) (j : Fin maxNumMotors) :
    min_test_order r ≤ r.test_order j ∧
      r.test_order j ≤ max_test_order r :=
  ⟨fold_min_le_elem r.test_order _ j (List.mem_finRange j) _,
    fold_max_elem_le r.test_order _ j (List.mem_finRange j) _⟩

lemma min_le_max_test_order (r : Registry) :
    min_test_order r ≤ max_test_order r :=
  le_trans (test_order_bounds r ⟨0, by decide⟩).1
    (test_order_bounds r ⟨0, by decide⟩).2

lemma flatMap_ite_eq_filter_flatMap {β : Type} (l : List (Fin maxNumMotors))
    (q : Fin maxNumMotors → Prop) [DecidablePred q]
    (b : Fin maxNumMotors → Bool) (hqb : ∀ x, q x ↔ b x = true)
    (f : Fin maxNumMotors → List β) :
    (l.flatMap fun x => if q x then f x else []) =
      (l.filter b).flatMap f := by
  induction l with
  | nil => rfl
  | cons a t ih =>
    rw [List.flatMap_cons, List.filter_cons]
    by_cases hq : q a
    · rw [if_pos hq, if_pos ((hqb a).mp hq), List.flatMap_cons, ih]
    · have hb : ¬b a = true := fun h => hq ((hqb a).mpr h)
      rw [if_neg hq, if_neg hb, ih]
      rfl

lemma count_filter_eq {α : Type} [DecidableEq α] (l : List α)
    (pr : α → Bool) (a : α) :
    (l.filter pr).count a = if pr a then l.count a else 0 := by
  induction l with
  | nil => simp
  | cons b t ih =>
    by_cases hab : a = b
    · subst hab
      by_cases hb : pr a = true <;>
        simp [List.filter_cons, List.count_cons, hb, ih]
    · by_cases hb : pr b = true <;>
        simp [List.filter_cons, List.count_cons, hb, hab, ih]

lemma count_finRange (j : Fin maxNumMotors) :
    (List.finRange maxNumMotors).count j = 1 := by
  have h1 := List.nodup_iff_count_le_one.mp (List.nodup_finRange maxNumMotors) j
  have h2 : 0 < (List.finRange maxNumMotors).count j :=
    List.count_pos_iff.mpr (List.mem_finRange j)
  omega

/-- How often motor `j` appears in one order level's block. -/
lemma count_block (r : Registry) (o : Nat) (j : Fin maxNumMotors) :
    ((List.finRange maxNumMotors).filter
        (fun k => r.motor_enabled k && r.test_order k == o)).count j =
      if r.motor_enabled j = true ∧ r.test_order j = o then 1 else 0 := by
  rw [count_filter_eq, count_finRange]
  by_cases h1 : r.motor_enabled j = true <;>
    by_cases h2 : r.test_order j = o <;>
    simp [h1, h2]

/-- How often motor `j` appears across a run of distinct order levels. -/
lemma count_blocks (r : Registry) (os : List Nat) (hnd : os.Nodup)
    (j : Fin maxNumMotors) :
    (os.flatMap fun o => (List.finRange maxNumMotors).filter
        (fun k => r.motor_enabled k && r.test_order k == o)).count j =
      if r.motor_enabled j = true ∧ r.test_order j ∈ os then 1 else 0 := by
  induction os with
  | nil => simp
  | cons o t ih =>
    have hot : o ∉ t := (List.nodup_cons.mp hnd).1
    have hnt : t.Nodup := (List.nodup_cons.mp hnd).2
    rw [List.flatMap_cons, List.count_append, count_block, ih hnt]
    by_cases h1 : r.motor_enabled j = true <;>
      by_cases h2 : r.test_order j = o <;>
      by_cases h3 : r.test_order j ∈ t
    · exact absurd (h2 ▸ h3) hot
    all_goals simp [List.mem_cons, h1, h2, h3]
    all_goals exact hot

/-- Each enabled motor appears exactly once in the firing sequence, each
disabled one not at all. -/
lemma firing_sequence_count (r : Registry) (j : Fin maxNumMotors) :
    (firing_sequence r).count j = if r.motor_enabled j then 1 else 0 := by
  unfold firing_sequence
  rw [count_blocks r _ (List.nodup_range' _ _ 1 (by omega)) j]
  have hb := test_order_bounds r j
  have hmm := min_le_max_test_order r
  by_cases h1 : r.motor_enabled j = true
  · have hmem : r.test_order j ∈ List.range' (min_test_order r)
        (max_test_order r + 1 - min_test_order r) :=
      List.mem_range'_1.mpr ⟨hb.1, by omega⟩
    simp [h1, hmem]
  · simp [h1]

/-- Concatenated order-level blocks are sorted by test order, ties broken
by slot index. -/
lemma pairwise_blocks (r : Registry) (os : List Nat)
    (hos : os.Pairwise (· < ·)) :
    (os.flatMap fun o => (List.finRange maxNumMotors).filter
        (fun k => r.motor_enabled k && r.test_order k == o)).Pairwise
      (fun a b => r.test_order a < r.test_order b ∨
        (r.test_order a = r.test_order b ∧ a < b)) := by
  induction os with
  | nil => exact List.Pairwise.nil
  | cons o t ih =>
    rw [List.flatMap_cons]
    rw [List.pairwise_append]
    have hto : ∀ b ∈ t, o < b := (List.pairwise_cons.mp hos).1
    have hts : t.Pairwise (· < ·) := (List.pairwise_cons.mp hos).2
    refine ⟨?_, ih hts, ?_⟩
    · have hlt : ((List.finRange maxNumMotors).filter
          (fun k => r.motor_enabled k && r.test_order k == o)).Pairwise
            (· < ·) :=
        List.Pairwise.filter _ (List.pairwise_lt_finRange maxNumMotors)
      refine List.Pairwise.imp_of_mem ?_ hlt
      intro a b ha hb hab
      have hoa : r.test_order a = o := by
        have := List.of_mem_filter ha
        simp only [Bool.and_eq_true, beq_iff_eq] at this
        exact this.2
      have hob : r.test_order b = o := by
        have := List.of_mem_filter hb
        simp only [Bool.and_eq_true, beq_iff_eq] at this
        exact this.2
      exact Or.inr ⟨hoa.trans hob.symm, hab⟩
    · intro a ha b hb
      have hoa : r.test_order a = o := by
        have := List.of_mem_filter ha
        simp only [Bool.and_eq_true, beq_iff_eq] at this
        exact this.2
      obtain ⟨o', ho't, hbo'⟩ := List.mem_flatMap.mp hb
      have hob : r.test_order b = o' := by
        have := List.of_mem_filter hbo'
        simp only [Bool.and_eq_true, beq_iff_eq] at this
        exact this.2
      exact Or.inl (by rw [hoa, hob]; exact hto o' ho't)

/-- The firing sequence is sorted by test order, ties broken by slot
index. -/
lemma firing_sequence_sorted (r : Registry) :
    (firing_sequence r).Pairwise
      (fun a b => r.test_order a < r.test_order b ∨
        (r.test_order a = r.test_order b ∧ a < b)) :=
  pairwise_blocks r _ (List.pairwise_lt_range' _ _ 1 (by omega))

/-- The raw nested loops of `output_test` produce exactly the pulses of the
firing sequence. -/
lemma flatMap_congr_fun {α β : Type} (l : List α) (f g : α → List β)
    (h : ∀ x ∈ l, f x = g x) : l.flatMap f = l.flatMap g := by
  induction l with
  | nil => rfl
  | cons a t ih =>
    rw [List.flatMap_cons, List.flatMap_cons, h a (List.mem_cons_self a t),
      ih (fun x hx => h x (List.mem_cons_of_mem a hx))]

lemma output_test_events_decompose (r : Registry) (p : MixParams)
    (inp : MixInputs) :
    output_test_events r p inp =
      output_min_events r inp ++ [TestEvent.delay 4000] ++
        (firing_sequence r).flatMap (fire_pulse p inp) ++
        output_min_events r inp := by
  unfold output_test_events
  have hinner : ((List.range' (min_test_order r)
      (max_test_order r + 1 - min_test_order r)).flatMap fun o =>
        (List.finRange maxNumMotors).flatMap fun j =>
          if r.motor_enabled j ∧ r.test_order j = o then fire_pulse p inp j
          else []) =
      (firing_sequence r).flatMap (fire_pulse p inp) := by
    unfold firing_sequence
    rw [List.flatMap_assoc]
    exact flatMap_congr_fun _ _ _ (fun o ho =>
      flatMap_ite_eq_filter_flatMap (List.finRange maxNumMotors) _ _
        (fun x => by simp) (fire_pulse p inp))
  rw [hinner]

/-- C9: in `output_test`, `min_order`/`max_order` bound every slot's test
order regardless of enabled state; the event trace is exactly "all motors to
`radio_min`, settle 4000 ms, one 300 ms-on / 2000 ms-off pulse pair per
firing, all motors to `radio_min`"; the firing sequence never fires a
higher test order before a lower one and breaks ties by increasing slot
index; and each enabled motor fires exactly once (disabled motors never).
The `Nat` iteration used here matches the `uint8_t` loop of the source as
long as no slot's order is 255 (there the C loop would wrap and never
terminate), whence the hypothesis. -/
theorem output_test_spec (r : Registry) (p : MixParams) (inp : MixInputs)
    (horder : ∀ j, r.test_order j < 255) :
    (∀ j, min_test_order r ≤ r.test_order j ∧
      r.test_order j ≤ max_test_order r) ∧
    output_test_events r p inp =
      output_min_events r inp ++ [TestEvent.delay 4000] ++
        (firing_sequence r).flatMap (fire_pulse p inp) ++
        output_min_events r inp ∧
    (firing_sequence r).Pairwise
      (fun a b => r.test_order a < r.test_order b ∨
        (r.test_order a = r.test_order b ∧ a < b)) ∧
    (∀ j, (firing_sequence r).count j =
      if r.motor_enabled j then 1 else 0) :=
  ⟨test_order_bounds r, output_test_events_decompose r p inp,
    firing_sequence_sorted r, firing_sequence_count r⟩

/-- Four enabled motors with test orders `{0, 0, 1, 2}` (the spec's test
ordering scenario). -/
def regTest : Registry where
  motor_enabled := fun i => decide (i.val < 4)
  roll_factor := fun _ => 0
  pitch_factor := fun _ => 0
  yaw_factor := fun _ => 0
  test_order := fun i =>
    if i.val ≤ 1 then 0 else if i.val = 2 then 1 else
      if i.val = 3 then 2 else 0
  num_motors := 4

theorem output_test_spec_witness :
    (∀ j, regTest.test_order j < 255) ∧
    ((∀ j, min_test_order regTest ≤ regTest.test_order j ∧
        regTest.test_order j ≤ max_test_order regTest) ∧
      output_test_events regTest params0 inpZero =
        output_min_events regTest inpZero ++ [TestEvent.delay 4000] ++
          (firing_sequence regTest).flatMap (fire_pulse params0 inpZero) ++
          output_min_events regTest inpZero ∧
      (firing_sequence regTest).Pairwise
        (fun a b => regTest.test_order a < regTest.test_order b ∨
          (regTest.test_order a = regTest.test_order b ∧ a < b)) ∧
      (∀ j, (firing_sequence regTest).count j =
        if regTest.motor_enabled j then 1 else 0)) :=
  ⟨by decide, output_test_spec regTest params0 inpZero (by decide)⟩

end MotorsMatrix
